import Mathlib

/-!
Shallow embedding of the `aesccm` Go package (CCM mode, NIST SP 800-38C /
RFC 3610): the CBC-MAC accumulator from `cbc_mac.go` and the CCM construction
(`getTag`, `Seal`, `Open`, `NewCCM`) from the main source file.

Bytes are modelled as `Nat` values (kept below 256 by explicit `% 256` where
the Go code truncates to `byte`); byte slices are `List Nat`.  The block
cipher is an abstract function `E : List Nat → List Nat`; the Go
`cipher.Block` contract (`Encrypt` writes exactly 16 bytes) appears as the
hypothesis `∀ b, (E b).length = 16`.

The helper file `util.go` (`putUVarInt`, `maxUnsignedVarInt`,
`sliceForAppend`, `xorBytes`) and the external CTR keystream object
(`crypto/cipher.NewCTR`) are not among the given sources; their definitions
below are modelled from the spec and marked as such.
-/

namespace AesCcm

/-- CBC-MAC state (cbc_mac.go): the 16-byte accumulator `ci` and the fill
cursor `p`. -/
structure CbcMac where
  ci : List Nat
  p : Nat
  deriving DecidableEq

/-- One iteration of the loop body of `cbcMac.Write` (cbc_mac.go lines
37-45): if the cursor has reached the buffer length, encrypt the accumulator
in place and reset the cursor; then XOR the byte in at the cursor and
advance. -/
def macWriteByte (E : List Nat → List Nat) (m : CbcMac) (c : Nat) : CbcMac :=
  let m1 := if m.ci.length ≤ m.p then { ci := E m.ci, p := 0 } else m
  { ci := m1.ci.set m1.p (Nat.xor (m1.ci.getD m1.p 0) (c % 256)), p := m1.p + 1 }

/-- `cbcMac.Write` (cbc_mac.go): the loop over the input bytes. -/
def macWrite (E : List Nat → List Nat) (m : CbcMac) (bs : List Nat) : CbcMac :=
  bs.foldl (macWriteByte E) m

/-- `cbcMac.PadZero` (cbc_mac.go lines 79-84): if a partial block is pending,
encrypt the accumulator in place and reset the cursor. -/
def macPadZero (E : List Nat → List Nat) (m : CbcMac) : CbcMac :=
  if m.p ≠ 0 then { ci := E m.ci, p := 0 } else m

/-- `cbcMac.Sum(nil)` (cbc_mac.go lines 50-57): flush a pending partial block
exactly as `PadZero` does, then return the accumulator. -/
def macSum (E : List Nat → List Nat) (m : CbcMac) : List Nat :=
  (macPadZero E m).ci

/-- `cbcMac.Reset` (cbc_mac.go lines 59-65): zero the accumulator and the
cursor. -/
def macReset (m : CbcMac) : CbcMac :=
  { ci := List.replicate m.ci.length 0, p := 0 }

/-- The state produced by `newCBCMACFromBlock` for a 16-byte block cipher
(cbc_mac.go lines 87-92), which is also the state after any `Reset` of a
16-byte accumulator. -/
def macInit : CbcMac :=
  { ci := List.replicate 16 0, p := 0 }

/-- Modelled from the spec: `putUVarInt` (in `util.go`, which is not among
the given sources) writes `v` big-endian across exactly `w` bytes, byte `i`
being `v >> (8*(w-1-i))` truncated to a byte. -/
def beBytes (w v : Nat) : List Nat :=
  (List.range w).map (fun i => v / 2 ^ (8 * (w - 1 - i)) % 256)

/-- Modelled from the spec: `maxUnsignedVarInt n = 2^(8n) - 1` (in `util.go`,
which is not among the given sources); the spec gives
`maxPayload(N) = 2^(8*(15-N)) - 1` and `Seal`/`Open` call this with
`n = 15 - nonceSize`. -/
def maxUnsignedVarInt (n : Nat) : Nat := 2 ^ (8 * n) - 1

/-- Effect on the whole buffer of writing `r` over the subslice of `l` that
starts at index `i` (how `putUVarInt(l[i:i+len r], v)` acts on the backing
array). -/
def setSlice (l : List Nat) (i : Nat) (r : List Nat) : List Nat :=
  l.take i ++ r ++ l.drop (i + r.length)

/-- Associated-data length prefix selection inside `getTag` (main source
lines 71-85).  The code compares against `1<<15 - 1<<7` and `1<<31 - 1` and
writes either the 2-byte big-endian length, or `0xff 0xfe` plus a 4-byte
big-endian length, or `0xff 0xff` plus an 8-byte big-endian length. -/
def adLengthEncoding (n : Nat) : List Nat :=
  if n < 2 ^ 15 - 2 ^ 7 then beBytes 2 n
  else if n ≤ 2 ^ 31 - 1 then 255 :: 254 :: beBytes 4 n
  else 255 :: 255 :: beBytes 8 n

/-- B0 formatting inside `getTag` (main source lines 62-64): OR the encoded
tag size `((T-2)/2) << 3` into byte 0 of the counter block and write the
payload length `q` big-endian over the trailing `15-N` bytes. -/
def b0Block (N T : Nat) (ctr : List Nat) (q : Nat) : List Nat :=
  setSlice (ctr.set 0 (Nat.lor (ctr.getD 0 0) ((T - 2) / 2 * 8 % 256))) (1 + N)
    (beBytes (15 - N) q)

/-- `ccm.getTag` (main source lines 59-97): reset the accumulator, format B0
from the passed counter block, feed B0 (with the Adata bit when associated
data is present), the length-prefixed associated data, and the plaintext
into the CBC-MAC with zero padding, and return the 16-byte sum. -/
def getTag (E : List Nat → List Nat) (N T : Nat) (ctr data plaintext : List Nat) :
    List Nat :=
  let b0 := b0Block N T ctr plaintext.length
  let mAfter :=
    if 0 < data.length then
      let b0a := b0.set 0 (Nat.lor (b0.getD 0 0) 64)
      macPadZero E
        (macWrite E (macWrite E (macWrite E macInit b0a) (adLengthEncoding data.length))
          data)
    else
      macWrite E macInit b0
  macSum E (macPadZero E (macWrite E mAfter plaintext))

/-- Ctr0 formatting shared by `Seal` and `Open` (main source lines 120-122
and 154-156): a zeroed 16-byte block with byte 0 set to `15-N-1` and the
nonce copied in from byte 1. -/
def ctr0Block (N : Nat) (nonce : List Nat) : List Nat :=
  ((15 - N - 1) % 256) :: (nonce ++ List.replicate (15 - nonce.length) 0).take 15

/-- Big-endian value of a byte string, used as the abstract counter of the
CTR keystream. -/
def natOfBE (b : List Nat) : Nat :=
  b.foldl (fun a x => a * 256 + x % 256) 0

/-- Modelled from the spec: the external CTR keystream object
(`crypto/cipher.NewCTR`, listed out of scope by the spec).  Block `i` of the
keystream is the block-cipher encryption of the initial counter block viewed
as a 128-bit big-endian integer incremented `i` times; `beBytes 16`
re-serializes it, truncating modulo `2^128`. -/
def keystreamBlocks (E : List Nat → List Nat) (c : Nat) : Nat → List Nat
  | 0 => []
  | k + 1 => E (beBytes 16 c) ++ keystreamBlocks E (c + 1) k

/-- Modelled from the spec: `XORKeyStream`, XORing the keystream into `src`
and producing `src.length` bytes. -/
def xorKeyStream (E : List Nat → List Nat) (icb src : List Nat) : List Nat :=
  List.zipWith Nat.xor src (keystreamBlocks E (natOfBE icb) (src.length / 16 + 1))

/-- The error values declared at the top of the main source file. -/
inductive CcmError where
  | invalidBlockSize
  | invalidNonceSize
  | invalidTagSize
  | maxPayloadSizeReached
  | authenticationFailed
  deriving DecidableEq

/-- Result of `ccm.Seal`: the Go code panics on a wrong-length nonce, returns
the untyped `nil` slice when the plaintext exceeds the maximum payload, and
otherwise returns a byte slice. -/
inductive SealResult where
  | panicked
  | nilResult
  | ok (out : List Nat)
  deriving DecidableEq

/-- `ccm.Seal` (main source lines 107-136).  `sliceForAppend` is modelled
from the spec (in `util.go`, not among the given sources) as appending a
fresh region after `dst`; the region is fully overwritten before the return.
Note the returned slice is `ret[:len(plaintext)+tagSize]`, exactly as in the
code. -/
def Seal (E : List Nat → List Nat) (N T : Nat) (dst nonce plaintext ad : List Nat) :
    SealResult :=
  if nonce.length ≠ N then SealResult.panicked
  else if maxUnsignedVarInt (15 - N) < plaintext.length then SealResult.nilResult
  else
    let ctr0 := ctr0Block N nonce
    let s0 := E ctr0
    let ctr1 := ctr0.set 15 1
    let ct := xorKeyStream E ctr1 plaintext
    let tagFull := getTag E N T ctr1 ad plaintext
    let tagMasked := List.zipWith Nat.xor s0 tagFull
    SealResult.ok ((dst ++ ct ++ tagMasked).take (plaintext.length + T))

/-- `ccm.Open` (main source lines 138-174). -/
def Open (E : List Nat → List Nat) (N T : Nat) (dst nonce ciphertext ad : List Nat) :
    Except CcmError (List Nat) :=
  if nonce.length ≠ N then Except.error CcmError.invalidNonceSize
  else if ciphertext.length ≤ T then Except.error CcmError.invalidTagSize
  else if maxUnsignedVarInt (15 - N) < ciphertext.length - T then
    Except.error CcmError.maxPayloadSizeReached
  else
    let ptLen := ciphertext.length - T
    let ctr0 := ctr0Block N nonce
    let s0 := E ctr0
    let ctr1 := ctr0.set 15 1
    let plaintext := xorKeyStream E ctr1 (ciphertext.take ptLen)
    let tagFull := getTag E N T ctr1 ad plaintext
    let tagMasked := List.zipWith Nat.xor tagFull s0
    if tagMasked.take T = ciphertext.drop ptLen then Except.ok (dst ++ plaintext)
    else Except.error CcmError.authenticationFailed

/-- The validated parameters held by a `ccm` value. -/
structure CCM where
  nonceSize : Int
  tagSize : Int
  deriving DecidableEq

/-- `NewCCM` parameter validation (main source lines 177-196); `blockSize`
stands for `block.BlockSize()`, and the Go test `tagSize&1 == 0` is evenness
of the (signed) tag size. -/
def NewCCM (blockSize : Nat) (nonceSize tagSize : Int) : Except CcmError CCM :=
  if blockSize ≠ 16 then Except.error CcmError.invalidBlockSize
  else if ¬(7 ≤ nonceSize ∧ nonceSize ≤ 13) then Except.error CcmError.invalidNonceSize
  else if ¬(4 ≤ tagSize ∧ tagSize ≤ 16 ∧ tagSize % 2 = 0) then
    Except.error CcmError.invalidTagSize
  else Except.ok { nonceSize := nonceSize, tagSize := tagSize }

/-- A concrete 16-byte block transform used to instantiate theorems on
explicit inputs. -/
def testCipher (b : List Nat) : List Nat :=
  (b.map (fun x => (x + 113) % 256) ++ List.replicate 16 0).take 16

/-- Taking fewer elements than an index that was overwritten ignores the
overwrite. -/
theorem take_set_of_le (l : List Nat) (i v n : Nat) (h : n ≤ i) :
    (l.set i v).take n = l.take n := by
  apply List.ext_getElem?
  intro j
  rw [List.getElem?_take, List.getElem?_take]
  by_cases hj : j < n
  · simp only [hj, if_pos, List.getElem?_set_ne (show i ≠ j by omega)]
  · simp [hj]

theorem beBytes_length (w v : Nat) : (beBytes w v).length = w := by
  simp [beBytes]

theorem testCipher_length : ∀ b, (testCipher b).length = 16 := by
  intro b
  simp [testCipher]

/-- One Write step keeps the accumulator 16 bytes long and the cursor at
most 16. -/
theorem macWriteByte_inv {E : List Nat → List Nat} (hE : ∀ b, (E b).length = 16)
    {m : CbcMac} (h : m.ci.length = 16 ∧ m.p ≤ 16) (c : Nat) :
    (macWriteByte E m c).ci.length = 16 ∧ (macWriteByte E m c).p ≤ 16 := by
  simp only [macWriteByte]
  split
  case isTrue => simp [List.length_set, hE]
  case isFalse hcond =>
    refine ⟨by simp [List.length_set, h.1], ?_⟩
    rw [h.1] at hcond
    omega

/-- Write keeps the accumulator 16 bytes long and the cursor at most 16. -/
theorem macWrite_inv {E : List Nat → List Nat} (hE : ∀ b, (E b).length = 16)
    (bs : List Nat) :
    ∀ m : CbcMac, m.ci.length = 16 ∧ m.p ≤ 16 →
      (macWrite E m bs).ci.length = 16 ∧ (macWrite E m bs).p ≤ 16 := by
  induction bs with
  | nil => intro m h; exact h
  | cons c bs ih =>
      intro m h
      exact ih _ (macWriteByte_inv hE h c)

theorem macPadZero_inv {E : List Nat → List Nat} (hE : ∀ b, (E b).length = 16)
    {m : CbcMac} (h : m.ci.length = 16 ∧ m.p ≤ 16) :
    (macPadZero E m).ci.length = 16 ∧ (macPadZero E m).p ≤ 16 := by
  simp only [macPadZero]
  split
  · exact ⟨hE _, by simp⟩
  · exact h

theorem macInit_inv : macInit.ci.length = 16 ∧ macInit.p ≤ 16 := by simp [macInit]

/-- The tag returned by getTag is always a 16-byte value. -/
theorem getTag_length {E : List Nat → List Nat} (hE : ∀ b, (E b).length = 16)
    (N T : Nat) (c d p : List Nat) : (getTag E N T c d p).length = 16 := by
  simp only [getTag, macSum]
  split
  · exact (macPadZero_inv hE (macPadZero_inv hE (macWrite_inv hE _ _
      (macPadZero_inv hE (macWrite_inv hE _ _ (macWrite_inv hE _ _
        (macWrite_inv hE _ _ macInit_inv))))))).1
  · exact (macPadZero_inv hE (macPadZero_inv hE (macWrite_inv hE _ _
      (macWrite_inv hE _ _ macInit_inv)))).1

theorem keystreamBlocks_length {E : List Nat → List Nat} (hE : ∀ b, (E b).length = 16) :
    ∀ (k c : Nat), (keystreamBlocks E c k).length = 16 * k := by
  intro k
  induction k with
  | zero => intro c; simp [keystreamBlocks]
  | succ k ih =>
      intro c
      simp [keystreamBlocks, hE, ih]
      ring

theorem xorKeyStream_length {E : List Nat → List Nat} (hE : ∀ b, (E b).length = 16)
    (icb src : List Nat) : (xorKeyStream E icb src).length = src.length := by
  simp only [xorKeyStream, List.length_zipWith, keystreamBlocks_length hE]
  have := Nat.div_add_mod src.length 16
  omega

theorem zipWith_xor_cancel :
    ∀ (a k : List Nat), a.length ≤ k.length →
      List.zipWith Nat.xor (List.zipWith Nat.xor a k) k = a
  | [], _, _ => by simp
  | x :: a, y :: k, h => by
      simp only [List.zipWith]
      rw [zipWith_xor_cancel a k (by simpa using h)]
      congr 1
      exact Nat.xor_cancel_right y x
  | _ :: _, [], h => by simp at h

/-- Applying the same CTR keystream twice returns the original data. -/
theorem xorKeyStream_invol {E : List Nat → List Nat} (hE : ∀ b, (E b).length = 16)
    (icb src : List Nat) : xorKeyStream E icb (xorKeyStream E icb src) = src := by
  have h2 : (List.zipWith Nat.xor src
      (keystreamBlocks E (natOfBE icb) (src.length / 16 + 1))).length = src.length := by
    rw [List.length_zipWith, keystreamBlocks_length hE]
    have := Nat.div_add_mod src.length 16
    omega
  unfold xorKeyStream
  rw [h2]
  apply zipWith_xor_cancel
  rw [keystreamBlocks_length hE]
  have := Nat.div_add_mod src.length 16
  omega

theorem ctr0Block_length (N : Nat) (nonce : List Nat) :
    (ctr0Block N nonce).length = 16 := by
  simp [ctr0Block, List.length_take, List.length_append]
  omega

theorem getD_set_ne (l : List Nat) (i j v d : Nat) (h : i ≠ j) :
    (l.set i v).getD j d = l.getD j d := by
  rw [List.getD_eq_getElem?_getD, List.getD_eq_getElem?_getD, List.getElem?_set_ne h]

/-- B0 does not depend on the last byte of the counter block: formatting
overwrites the whole trailing field. -/
theorem b0Block_set15 {N T : Nat} (hN : N ≤ 14) {ctr : List Nat}
    (h16 : ctr.length = 16) (q : Nat) :
    b0Block N T (ctr.set 15 1) q = b0Block N T ctr q := by
  unfold b0Block setSlice
  rw [getD_set_ne ctr 15 0 1 _ (by omega)]
  rw [List.set_comm 1 _ ctr (by omega)]
  rw [take_set_of_le _ 15 1 (1 + N) (by omega)]
  rw [beBytes_length]
  have h1 : 1 + N + (15 - N) = 16 := by omega
  rw [h1]
  have h2 : ((ctr.set 0 (Nat.lor (ctr.getD 0 0) ((T - 2) / 2 * 8 % 256))).set 15 1).drop 16 = [] :=
    List.drop_eq_nil_of_le (by simp [List.length_set, h16])
  have h3 : (ctr.set 0 (Nat.lor (ctr.getD 0 0) ((T - 2) / 2 * 8 % 256))).drop 16 = [] :=
    List.drop_eq_nil_of_le (by simp [List.length_set, h16])
  rw [h2, h3]

/-- The trailing 15-N bytes of B0 hold the big-endian payload length. -/
theorem b0Block_drop {N T : Nat} (hN : N ≤ 14) {ctr : List Nat}
    (h16 : ctr.length = 16) (q : Nat) :
    (b0Block N T ctr q).drop (1 + N) = beBytes (15 - N) q := by
  unfold b0Block setSlice
  rw [List.append_assoc]
  rw [List.drop_left' (by simp [List.length_take, List.length_set, h16]; omega)]
  rw [beBytes_length]
  have h1 : 1 + N + (15 - N) = 16 := by omega
  rw [h1]
  rw [List.drop_eq_nil_of_le (by simp [List.length_set, h16])]
  simp

/-- getTag depends on the counter block only through B0. -/
theorem getTag_congr {E : List Nat → List Nat} {N T : Nat} {c c2 : List Nat}
    (d p : List Nat) (h : b0Block N T c p.length = b0Block N T c2 p.length) :
    getTag E N T c d p = getTag E N T c2 d p := by
  unfold getTag
  rw [h]

/-- Seal with both guards passed, with the let bindings spelled out. -/
theorem Seal_eq_body (E : List Nat → List Nat) (N T : Nat) (dst nonce pt ad : List Nat)
    (h1 : nonce.length = N) (h2 : ¬ (maxUnsignedVarInt (15 - N) < pt.length)) :
    Seal E N T dst nonce pt ad = SealResult.ok
      ((dst ++ xorKeyStream E ((ctr0Block N nonce).set 15 1) pt ++
        List.zipWith Nat.xor (E (ctr0Block N nonce))
          (getTag E N T ((ctr0Block N nonce).set 15 1) ad pt)).take (pt.length + T)) := by
  unfold Seal
  rw [if_neg (fun hc => hc h1), if_neg h2]

/-- Open with all three guards passed, with the let bindings spelled out. -/
theorem Open_eq_body (E : List Nat → List Nat) (N T : Nat) (dst nonce ct ad : List Nat)
    (h1 : nonce.length = N) (h2 : ¬ (ct.length ≤ T))
    (h3 : ¬ (maxUnsignedVarInt (15 - N) < ct.length - T)) :
    Open E N T dst nonce ct ad =
      if (List.zipWith Nat.xor
            (getTag E N T ((ctr0Block N nonce).set 15 1) ad
              (xorKeyStream E ((ctr0Block N nonce).set 15 1) (ct.take (ct.length - T))))
            (E (ctr0Block N nonce))).take T = ct.drop (ct.length - T)
      then Except.ok (dst ++ xorKeyStream E ((ctr0Block N nonce).set 15 1)
            (ct.take (ct.length - T)))
      else Except.error CcmError.authenticationFailed := by
  unfold Open
  rw [if_neg (fun hc => hc h1), if_neg h2, if_neg h3]

/-- Claim C1, amended to non-empty plaintexts: for every 16-byte block
cipher, valid parameters N and T, nonce of length N, associated data, and
NON-EMPTY plaintext within maxPayload(N), Open with nil dst inverts Seal
with nil dst and returns exactly the original plaintext.  (The claim as
stated also covers the empty plaintext, where it fails; see the
counterexample theorem.) -/
theorem sealOpenRoundTrip (E : List Nat → List Nat) (hE : ∀ b, (E b).length = 16)
    (N T : Nat) (hN1 : 7 ≤ N) (hN2 : N ≤ 13) (hT1 : 4 ≤ T) (hT2 : T ≤ 16)
    (nonce pt ad : List Nat) (hn : nonce.length = N) (hpt : pt ≠ [])
    (hmax : pt.length ≤ maxUnsignedVarInt (15 - N)) :
    ∃ ct, Seal E N T [] nonce pt ad = SealResult.ok ct ∧
      Open E N T [] nonce ct ad = Except.ok pt := by
  have hptpos : 0 < pt.length := List.length_pos.mpr hpt
  have hctLen : (xorKeyStream E ((ctr0Block N nonce).set 15 1) pt).length = pt.length :=
    xorKeyStream_length hE _ pt
  have htagLen : (getTag E N T ((ctr0Block N nonce).set 15 1) ad pt).length = 16 :=
    getTag_length hE N T _ ad pt
  have htmLen : (List.zipWith Nat.xor (E (ctr0Block N nonce))
      (getTag E N T ((ctr0Block N nonce).set 15 1) ad pt)).length = 16 := by
    rw [List.length_zipWith, hE, htagLen]
    simp
  have hsealEq : Seal E N T [] nonce pt ad = SealResult.ok
      (xorKeyStream E ((ctr0Block N nonce).set 15 1) pt ++
        (List.zipWith Nat.xor (E (ctr0Block N nonce))
          (getTag E N T ((ctr0Block N nonce).set 15 1) ad pt)).take T) := by
    rw [Seal_eq_body E N T [] nonce pt ad hn (by omega)]
    congr 1
    rw [List.nil_append, ← hctLen, List.take_append]
  refine ⟨_, hsealEq, ?_⟩
  have houtLen : (xorKeyStream E ((ctr0Block N nonce).set 15 1) pt ++
      (List.zipWith Nat.xor (E (ctr0Block N nonce))
        (getTag E N T ((ctr0Block N nonce).set 15 1) ad pt)).take T).length =
      pt.length + T := by
    rw [List.length_append, List.length_take, htmLen, hctLen]
    omega
  have hopenEq := Open_eq_body E N T [] nonce
    (xorKeyStream E ((ctr0Block N nonce).set 15 1) pt ++
      (List.zipWith Nat.xor (E (ctr0Block N nonce))
        (getTag E N T ((ctr0Block N nonce).set 15 1) ad pt)).take T) ad hn
    (by rw [houtLen]; omega) (by rw [houtLen]; omega)
  rw [hopenEq, houtLen]
  have hsub : pt.length + T - T = pt.length := by omega
  rw [hsub]
  rw [List.take_left' hctLen, List.drop_left' hctLen]
  rw [xorKeyStream_invol hE ((ctr0Block N nonce).set 15 1) pt]
  rw [List.zipWith_comm_of_comm Nat.xor Nat.xor_comm
    (getTag E N T ((ctr0Block N nonce).set 15 1) ad pt) (E (ctr0Block N nonce))]
  rw [if_pos rfl]
  rw [List.nil_append]

/-- Witness for the amended claim C1 at a concrete instance. -/
theorem sealOpenRoundTrip_witness :
    ∃ ct, Seal testCipher 13 4 [] (List.replicate 13 2) [5] [9] = SealResult.ok ct ∧
      Open testCipher 13 4 [] (List.replicate 13 2) ct [9] = Except.ok [5] :=
  sealOpenRoundTrip testCipher testCipher_length 13 4 (by decide) (by decide)
    (by decide) (by decide) (List.replicate 13 2) [5] [9] (by simp) (by decide)
    (by decide)

/-- Claim C1 as stated is false at the empty plaintext: it is within
maxPayload(13), Seal produces a T-byte output, and Open rejects it with
ErrInvalidTagSize instead of returning the plaintext. -/
theorem sealOpenRoundTrip_emptyPlaintext_cex :
    Seal testCipher 13 4 [] (List.replicate 13 0) [] [] = SealResult.ok [8, 0, 0, 0] ∧
    Open testCipher 13 4 [] (List.replicate 13 0) [8, 0, 0, 0] [] =
      Except.error CcmError.invalidTagSize ∧
    ([] : List Nat).length ≤ maxUnsignedVarInt (15 - 13) := by
  refine ⟨by decide, by rfl, by decide⟩

/-- Claim C2: the code selects the associated-data length prefix against the
threshold `1<<15 - 1<<7 = 32640`, not `2^16 - 2^8 = 65280` as the claim (and
SP 800-38C A.2, which the source comment cites) states: at length
65279 = 2^16 - 2^8 - 1 the code emits the 6-byte `0xff 0xfe` prefix instead
of the 2-byte big-endian prefix, and it already switches prefixes at
32640. -/
theorem adLengthEncoding_codeThreshold_eval :
    adLengthEncoding 65279 = [255, 254, 0, 0, 254, 255] ∧
    adLengthEncoding 65279 ≠ beBytes 2 65279 ∧
    adLengthEncoding 32639 = beBytes 2 32639 ∧
    adLengthEncoding 32640 = 255 :: 254 :: beBytes 4 32640 := by
  refine ⟨by decide, by decide, by decide, by decide⟩

/-- Claim C4: evaluation at a non-empty dst.  Seal returns
`ret[:len(plaintext)+tagSize]`, so with dst = [7], empty plaintext and
T = 4 the output is [7, 8, 0, 0] of length 4, not
len(dst) + len(plaintext) + T = 5: the final byte of the tag is cut off
(the dst = [] call shows the full tag is [8, 0, 0, 0]). -/
theorem seal_truncates_nonempty_dst_eval :
    Seal testCipher 13 4 [7] (List.replicate 13 0) [] [] = SealResult.ok [7, 8, 0, 0] ∧
    Seal testCipher 13 4 [] (List.replicate 13 0) [] [] = SealResult.ok [8, 0, 0, 0] ∧
    ([7, 8, 0, 0] : List Nat).length ≠
      ([7] : List Nat).length + ([] : List Nat).length + 4 := by
  refine ⟨by decide, by decide, by decide⟩

/-- Claim C5: the tag is computed from the counter block as it stood before
the last byte is set to 1: formatting B0 ORs the flag bits into byte 0 and
overwrites the entire trailing 15-N byte field with the big-endian plaintext
length Q, so getTag on the post-increment block equals getTag on Ctr0, the
trailing field of B0 holds Q (not the CTR counter value 1), and in
particular the tag used by Seal and Open (whose counter block is
`(ctr0Block N nonce).set 15 1`) is the Ctr0 tag. -/
theorem tagIndependentOfCtrIncrement (E : List Nat → List Nat) (N T : Nat)
    (hN : N ≤ 14) (ctr data pt : List Nat) (h16 : ctr.length = 16) :
    getTag E N T (ctr.set 15 1) data pt = getTag E N T ctr data pt ∧
    (b0Block N T (ctr.set 15 1) pt.length).drop (1 + N) =
      beBytes (15 - N) pt.length ∧
    (∀ nonce : List Nat,
      getTag E N T ((ctr0Block N nonce).set 15 1) data pt =
        getTag E N T (ctr0Block N nonce) data pt) := by
  refine ⟨getTag_congr data pt (b0Block_set15 hN h16 pt.length), ?_,
    fun nonce => getTag_congr data pt
      (b0Block_set15 hN (ctr0Block_length N nonce) pt.length)⟩
  rw [b0Block_set15 hN h16, b0Block_drop hN h16]

/-- Witness for claim C5 at a concrete counter block. -/
theorem tagIndependentOfCtrIncrement_witness :
    getTag testCipher 13 4 ((ctr0Block 13 (List.replicate 13 2)).set 15 1) [9] [5] =
      getTag testCipher 13 4 (ctr0Block 13 (List.replicate 13 2)) [9] [5] ∧
    (b0Block 13 4 ((ctr0Block 13 (List.replicate 13 2)).set 15 1)
        (List.length [5])).drop (1 + 13) = beBytes (15 - 13) (List.length [5]) ∧
    (∀ nonce : List Nat,
      getTag testCipher 13 4 ((ctr0Block 13 nonce).set 15 1) [9] [5] =
        getTag testCipher 13 4 (ctr0Block 13 nonce) [9] [5]) :=
  tagIndependentOfCtrIncrement testCipher 13 4 (by decide)
    (ctr0Block 13 (List.replicate 13 2)) [9] [5] (by decide)

/-- Claim C6: Open fails with ErrInvalidNonceSize exactly when the nonce
length differs from N; with the nonce correct it fails with
ErrInvalidTagSize exactly when the input is not longer than T; with both
checks passed it fails with ErrMaxPayloadSizeReached exactly when
len(ciphertext) - T exceeds maxPayload(N); and whenever Open returns an
error it returns no plaintext. -/
theorem open_errorOrder (E : List Nat → List Nat) (N T : Nat)
    (dst nonce ct ad : List Nat) :
    (Open E N T dst nonce ct ad = Except.error CcmError.invalidNonceSize ↔
      nonce.length ≠ N) ∧
    (nonce.length = N →
      (Open E N T dst nonce ct ad = Except.error CcmError.invalidTagSize ↔
        ct.length ≤ T)) ∧
    (nonce.length = N → T < ct.length →
      (Open E N T dst nonce ct ad = Except.error CcmError.maxPayloadSizeReached ↔
        maxUnsignedVarInt (15 - N) < ct.length - T)) ∧
    (∀ e out, Open E N T dst nonce ct ad = Except.error e →
      Open E N T dst nonce ct ad ≠ Except.ok out) := by
  refine ⟨?_, ?_, ?_, ?_⟩
  · by_cases h1 : nonce.length = N
    · by_cases h2 : ct.length ≤ T
      · simp [Open, h1, h2]
      · by_cases h3 : maxUnsignedVarInt (15 - N) < ct.length - T
        · simp [Open, h1, h2, h3]
        · simp only [Open, h1]
          simp only [if_neg (show ¬ (N ≠ N) from fun hc => hc rfl), if_neg h2, if_neg h3]
          split <;> simp [h1]
    · simp [Open, h1]
  · intro h1
    by_cases h2 : ct.length ≤ T
    · simp [Open, h1, h2]
    · by_cases h3 : maxUnsignedVarInt (15 - N) < ct.length - T
      · simp [Open, h1, h2, h3]
      · simp only [Open, h1]
        simp only [if_neg (show ¬ (N ≠ N) from fun hc => hc rfl), if_neg h2, if_neg h3]
        split <;> simp [h2]
  · intro h1 h2
    have h2n : ¬ (ct.length ≤ T) := by omega
    by_cases h3 : maxUnsignedVarInt (15 - N) < ct.length - T
    · simp [Open, h1, h2n, h3]
    · simp only [Open, h1]
      simp only [if_neg (show ¬ (N ≠ N) from fun hc => hc rfl), if_neg h2n, if_neg h3]
      split <;> simp [h3]
  · intro e out he
    rw [he]
    exact fun hc => Except.noConfusion hc

/-- Witness for claim C6: each of the three error checks fired at a concrete
input. -/
theorem open_errorOrder_witness :
    (Open testCipher 13 4 [] (List.replicate 12 0) [1, 2, 3, 4, 5] [] =
      Except.error CcmError.invalidNonceSize) ∧
    (Open testCipher 13 4 [] (List.replicate 13 0) [1, 2, 3, 4] [] =
      Except.error CcmError.invalidTagSize) ∧
    (Open testCipher 13 4 [] (List.replicate 13 0) (List.replicate 65541 1) [] =
      Except.error CcmError.maxPayloadSizeReached) :=
  ⟨((open_errorOrder testCipher 13 4 [] (List.replicate 12 0) [1, 2, 3, 4, 5] []).1).mpr
      (by simp),
   ((open_errorOrder testCipher 13 4 [] (List.replicate 13 0) [1, 2, 3, 4] []).2.1
      (by simp)).mpr (by simp),
   ((open_errorOrder testCipher 13 4 [] (List.replicate 13 0)
      (List.replicate 65541 1) []).2.2.1 (by simp)
      (by rw [List.length_replicate]; omega)).mpr
      (by rw [List.length_replicate]; decide)⟩

/-- Claim C7: with a nonce of the correct length, Seal on a plaintext longer
than maxPayload(N) returns the nil slice (no panic, no error value), and
Seal on a plaintext of length exactly maxPayload(N) produces output. -/
theorem seal_maxPayload (E : List Nat → List Nat) (N T : Nat)
    (dst nonce pt ad : List Nat) (hn : nonce.length = N) :
    (maxUnsignedVarInt (15 - N) < pt.length →
      Seal E N T dst nonce pt ad = SealResult.nilResult) ∧
    (pt.length = maxUnsignedVarInt (15 - N) →
      ∃ out, Seal E N T dst nonce pt ad = SealResult.ok out) ∧
    Seal E N T dst nonce pt ad ≠ SealResult.panicked := by
  have hn2 : ¬ (nonce.length ≠ N) := fun hc => hc hn
  refine ⟨?_, ?_, ?_⟩
  · intro h
    unfold Seal
    rw [if_neg hn2, if_pos h]
  · intro h
    have h2 : ¬ (maxUnsignedVarInt (15 - N) < pt.length) := by omega
    unfold Seal
    rw [if_neg hn2, if_neg h2]
    exact ⟨_, rfl⟩
  · unfold Seal
    rw [if_neg hn2]
    split
    · exact fun hc => SealResult.noConfusion hc
    · exact fun hc => SealResult.noConfusion hc

/-- Witness for claim C7 at N = 13, where maxPayload = 65535: a 65536-byte
plaintext yields the nil result and a 65535-byte plaintext yields output. -/
theorem seal_maxPayload_witness :
    Seal testCipher 13 4 [] (List.replicate 13 0) (List.replicate 65536 2) [] =
      SealResult.nilResult ∧
    (∃ out, Seal testCipher 13 4 [] (List.replicate 13 0) (List.replicate 65535 2) [] =
      SealResult.ok out) :=
  ⟨(seal_maxPayload testCipher 13 4 [] _ _ [] (by simp)).1
      (by rw [List.length_replicate]; decide),
   (seal_maxPayload testCipher 13 4 [] _ _ [] (by simp)).2.1
      (by rw [List.length_replicate]; decide)⟩

/-- Claim C8: NewCCM fails with ErrInvalidBlockSize exactly when the block
size is not 16; otherwise with ErrInvalidNonceSize exactly when the nonce
size is outside [7,13]; otherwise with ErrInvalidTagSize exactly when the
tag size is outside [4,16] or odd; otherwise it returns an instance. -/
theorem newCCM_validation (bs : Nat) (ns ts : Int) :
    (NewCCM bs ns ts = Except.error CcmError.invalidBlockSize ↔ bs ≠ 16) ∧
    (bs = 16 →
      (NewCCM bs ns ts = Except.error CcmError.invalidNonceSize ↔ ¬(7 ≤ ns ∧ ns ≤ 13))) ∧
    (bs = 16 → (7 ≤ ns ∧ ns ≤ 13) →
      (NewCCM bs ns ts = Except.error CcmError.invalidTagSize ↔
        ¬(4 ≤ ts ∧ ts ≤ 16 ∧ ts % 2 = 0))) ∧
    (bs = 16 → (7 ≤ ns ∧ ns ≤ 13) → (4 ≤ ts ∧ ts ≤ 16 ∧ ts % 2 = 0) →
      NewCCM bs ns ts = Except.ok { nonceSize := ns, tagSize := ts }) := by
  unfold NewCCM
  by_cases h1 : bs = 16 <;> by_cases h2 : 7 ≤ ns ∧ ns ≤ 13 <;>
    by_cases h3 : 4 ≤ ts ∧ ts ≤ 16 ∧ ts % 2 = 0 <;>
    simp_all

/-- Witness for claim C8: nonce sizes 6 and 14, tag sizes 3, 5 and 18, and
block size 8 are rejected; valid parameters are accepted. -/
theorem newCCM_validation_witness :
    NewCCM 16 6 8 = Except.error CcmError.invalidNonceSize ∧
    NewCCM 16 14 8 = Except.error CcmError.invalidNonceSize ∧
    NewCCM 16 8 3 = Except.error CcmError.invalidTagSize ∧
    NewCCM 16 8 5 = Except.error CcmError.invalidTagSize ∧
    NewCCM 16 8 18 = Except.error CcmError.invalidTagSize ∧
    NewCCM 8 8 8 = Except.error CcmError.invalidBlockSize ∧
    NewCCM 16 8 8 = Except.ok { nonceSize := 8, tagSize := 8 } :=
  ⟨((newCCM_validation 16 6 8).2.1 rfl).mpr (by decide),
   ((newCCM_validation 16 14 8).2.1 rfl).mpr (by decide),
   ((newCCM_validation 16 8 3).2.2.1 rfl (by decide)).mpr (by decide),
   ((newCCM_validation 16 8 5).2.2.1 rfl (by decide)).mpr (by decide),
   ((newCCM_validation 16 8 18).2.2.1 rfl (by decide)).mpr (by decide),
   ((newCCM_validation 8 8 8).1).mpr (by decide),
   (newCCM_validation 16 8 8).2.2.2 rfl (by decide) (by decide)⟩

/-- Claim C9, counterexample: from the fresh state, writing one full 16-byte
block leaves the cursor at 16 (the encrypt-and-reset is deferred to the next
operation), so `p < 16` does not hold after every Write. -/
theorem macCursor_fullBlock_cex :
    ¬ ((macWrite testCipher macInit (List.replicate 16 1)).p < 16) := by decide

/-- Claim C9, amended: the fill cursor satisfies 0 ≤ p ≤ 16 after every
sequence of written byte strings from the fresh state (p = 16 is reachable
after a full block); Write performs the encrypt-and-reset when a byte
arrives while the cursor is at the block size, as the last conjunct
shows. -/
theorem macCursor_le_blockSize (E : List Nat → List Nat)
    (hE : ∀ b, (E b).length = 16) (chunks : List (List Nat)) :
    (chunks.foldl (macWrite E) macInit).p ≤ 16 ∧
    (chunks.foldl (macWrite E) macInit).ci.length = 16 ∧
    (∀ m : CbcMac, m.ci.length = 16 → m.p = 16 → ∀ c,
      macWriteByte E m c =
        { ci := (E m.ci).set 0 (Nat.xor ((E m.ci).getD 0 0) (c % 256)), p := 1 }) := by
  have main : ∀ (cs : List (List Nat)) (m : CbcMac),
      m.ci.length = 16 ∧ m.p ≤ 16 →
      (cs.foldl (macWrite E) m).ci.length = 16 ∧ (cs.foldl (macWrite E) m).p ≤ 16 := by
    intro cs
    induction cs with
    | nil => intro m h; exact h
    | cons c cs ih => intro m h; exact ih _ (macWrite_inv hE c m h)
  refine ⟨(main chunks macInit macInit_inv).2, (main chunks macInit macInit_inv).1, ?_⟩
  intro m h16 hp c
  simp [macWriteByte, h16, hp]

/-- Witness for the amended claim C9 at a concrete write sequence. -/
theorem macCursor_le_blockSize_witness :
    (∀ b, (testCipher b).length = 16) ∧
    (([[1, 2, 3], List.replicate 16 0] : List (List Nat)).foldl
      (macWrite testCipher) macInit).p ≤ 16 :=
  ⟨testCipher_length,
    (macCursor_le_blockSize testCipher testCipher_length
      [[1, 2, 3], List.replicate 16 0]).1⟩

/-- Claim C10: with a nonce of length N and T ≤ 16, Seal on the empty
plaintext returns a buffer of exactly T bytes for every dst; Open rejects
every input of length at most T with ErrInvalidTagSize; hence no output
Seal produces for an empty plaintext can be opened. -/
theorem seal_emptyPlaintext_unopenable (E : List Nat → List Nat)
    (hE : ∀ b, (E b).length = 16) (N T : Nat) (hT : T ≤ 16)
    (dst dst2 nonce ad ad2 : List Nat) (hn : nonce.length = N) :
    (∃ out, Seal E N T dst nonce [] ad = SealResult.ok out ∧ out.length = T) ∧
    (∀ ct, ct.length ≤ T →
      Open E N T dst2 nonce ct ad2 = Except.error CcmError.invalidTagSize) ∧
    (∀ out, Seal E N T dst nonce [] ad = SealResult.ok out →
      Open E N T dst2 nonce out ad2 = Except.error CcmError.invalidTagSize) := by
  have hn2 : ¬ (nonce.length ≠ N) := fun hc => hc hn
  have hopen : ∀ ct : List Nat, ct.length ≤ T →
      Open E N T dst2 nonce ct ad2 = Except.error CcmError.invalidTagSize := by
    intro ct hct
    unfold Open
    rw [if_neg hn2, if_pos hct]
  have hseal : Seal E N T dst nonce [] ad =
      SealResult.ok ((dst ++ xorKeyStream E ((ctr0Block N nonce).set 15 1) [] ++
        List.zipWith Nat.xor (E (ctr0Block N nonce))
          (getTag E N T ((ctr0Block N nonce).set 15 1) ad [])).take
        (List.length ([] : List Nat) + T)) := by
    unfold Seal
    rw [if_neg hn2, if_neg (by simp : ¬ (maxUnsignedVarInt (15 - N) <
      List.length ([] : List Nat)))]
  have hlen : ((dst ++ xorKeyStream E ((ctr0Block N nonce).set 15 1) [] ++
        List.zipWith Nat.xor (E (ctr0Block N nonce))
          (getTag E N T ((ctr0Block N nonce).set 15 1) ad [])).take
        (List.length ([] : List Nat) + T)).length = T := by
    rw [List.length_take, List.length_append, List.length_append,
      List.length_zipWith, hE, getTag_length hE]
    simp [xorKeyStream]
    omega
  refine ⟨⟨_, hseal, hlen⟩, hopen, ?_⟩
  intro out hout
  rw [hseal] at hout
  have : out = _ := (SealResult.ok.injEq _ _).mp hout.symm
  subst this
  exact hopen _ (le_of_eq hlen)

/-- Witness for claim C10 at a concrete instance with a non-empty dst. -/
theorem seal_emptyPlaintext_unopenable_witness :
    (∃ out, Seal testCipher 13 4 [1] (List.replicate 13 3) [] [2] = SealResult.ok out ∧
      out.length = 4) ∧
    (∀ out, Seal testCipher 13 4 [1] (List.replicate 13 3) [] [2] = SealResult.ok out →
      Open testCipher 13 4 [] (List.replicate 13 3) out [] =
        Except.error CcmError.invalidTagSize) :=
  ⟨(seal_emptyPlaintext_unopenable testCipher testCipher_length 13 4 (by decide)
      [1] [] (List.replicate 13 3) [2] [] (by simp)).1,
   (seal_emptyPlaintext_unopenable testCipher testCipher_length 13 4 (by decide)
      [1] [] (List.replicate 13 3) [2] [] (by simp)).2.2⟩

end AesCcm
